import Mathlib

/-!
Verification of the beanrust ledger-parsing core.

This file shallowly embeds the Rust sources of the repository
(`src/core/types.rs`, `src/core/types/transaction.rs`, `src/io/parser.rs`,
`src/io/parser/statement_iterator.rs`, `src/io/parser/transaction_parsing.rs`)
into Lean and proves the specification claims about them.

Modelling conventions:
* Rust `rust_decimal::Decimal` values are embedded as exact rationals (`Rat`).
  `Decimal` arithmetic on the values occurring in this development is exact;
  the 28-digit precision ceiling and overflow of the 96-bit mantissa are not
  modelled.  Division by zero, which panics in Rust, is modelled explicitly.
* Rust strings are embedded as `String`/`List Char`; byte offsets of ASCII
  input coincide with character offsets, and all slicing is done on character
  lists.  Unicode character classes (`char::is_alphabetic`,
  `char::is_whitespace`, regex `\d`, `\w`) are modelled by their ASCII
  restrictions, which agree with Rust on all inputs considered here.
* Fallible Rust functions returning `Result<T, E>` become `Except E T` when
  they cannot panic, and `PRes E T` (which has an explicit `panic` outcome)
  when they can.
-/

instance instDecEqExcept {ε α : Type} [DecidableEq ε] [DecidableEq α] :
    DecidableEq (Except ε α) :=
  fun a b =>
    match a, b with
    | .ok x, .ok y =>
      if h : x = y then .isTrue (by rw [h]) else .isFalse (fun hc => h (by injection hc))
    | .error x, .error y =>
      if h : x = y then .isTrue (by rw [h]) else .isFalse (fun hc => h (by injection hc))
    | .ok _, .error _ => .isFalse (fun hc => by injection hc)
    | .error _, .ok _ => .isFalse (fun hc => by injection hc)

namespace Beanrust

/-! Exact `rust_decimal` values are embedded as `Rat`.  The arithmetic used
by the embedded code is written with `Rat.divInt` (rather than the `Field`
instance operations) so that every parser run reduces inside the kernel; the
lemmas `decAdd_eq`, `decDiv_eq` and `decAbs_eq` below identify these with the
ordinary rational operations. -/

def pow10 : Nat → Int
  | 0 => 1
  | n + 1 => 10 * pow10 n

/-- Exact decimal addition. -/
def decAdd (a b : Rat) : Rat :=
  Rat.divInt (a.num * b.den + b.num * a.den) (a.den * b.den)

/-- Exact decimal division (`rust_decimal` rounds a quotient needing more
than 28 fractional digits; the quotients in this development are exact). -/
def decDiv (a b : Rat) : Rat := Rat.divInt (a.num * b.den) (a.den * b.num)

/-- `Decimal::abs`. -/
def decAbs (a : Rat) : Rat := Rat.divInt (Int.ofNat a.num.natAbs) a.den

/-- Result of running a piece of Rust code that may return a value, return an
error, or abort the process with a panic. -/
inductive PRes (ε α : Type) where
  | ok (a : α)
  | err (e : ε)
  | panic (msg : String)
deriving DecidableEq, Repr

namespace PRes

def isOk {ε α : Type} : PRes ε α → Bool
  | .ok _ => true
  | _ => false

def isErr {ε α : Type} : PRes ε α → Bool
  | .err _ => true
  | _ => false

def isPanic {ε α : Type} : PRes ε α → Bool
  | .panic _ => true
  | _ => false

end PRes

/-! ### Character classes and basic string helpers -/

/-- `is_comment_char` from `src/io/parser.rs`. -/
def isCommentChar (c : Char) : Bool := c = ';' || c = '#'

/-- Rust `char::is_whitespace`, restricted to ASCII. -/
def wsChar (c : Char) : Bool := c.isWhitespace

/-- Rust `char::is_alphabetic`, restricted to ASCII. -/
def alphaChar (c : Char) : Bool := c.isAlpha

/-- Left and right brace characters (written via their code points). -/
def lbrace : Char := Char.ofNat 123

def rbrace : Char := Char.ofNat 125

/-- `str::trim_start`. -/
def trimStartChars (l : List Char) : List Char := l.dropWhile wsChar

/-- `str::trim_end`. -/
def trimEndChars (l : List Char) : List Char :=
  (l.reverse.dropWhile wsChar).reverse

/-- `str::trim`. -/
def trimChars (l : List Char) : List Char := trimEndChars (trimStartChars l)

/-- The slice `&data[s..e]` of a character buffer. -/
def sliceChars (data : List Char) (s e : Nat) : List Char := (data.take e).drop s

/-- `str::split_once(sep)`: split at the first occurrence of `sep`. -/
def splitOnceChar (sep : Char) : List Char → Option (List Char × List Char)
  | [] => none
  | c :: rest =>
    if c = sep then some ([], rest)
    else match splitOnceChar sep rest with
      | none => none
      | some (a, b) => some (c :: a, b)

/-- `trim_comment_at_end` from `src/io/parser.rs`: scan from the end of the
string towards the front; stop at the first newline; if a comment character is
found before that, cut the string there. -/
def trimCommentAtEnd (l : List Char) : List Char :=
  match (l.reverse.takeWhile (fun c => c ≠ '\n')).findIdx? isCommentChar with
  | none => l
  | some revIdx => l.take (l.length - 1 - revIdx)

/-- One-pass scan splitting a single-line string into maximal nonempty runs
of non-whitespace characters (the token stream of `TokenIterator`); `acc`
holds the reversed characters of the token currently being read. -/
def splitWSAux : List Char → List Char → List (List Char)
  | [], acc => if acc.isEmpty then [] else [acc.reverse]
  | c :: tl, acc =>
    if wsChar c then
      if acc.isEmpty then splitWSAux tl [] else acc.reverse :: splitWSAux tl []
    else splitWSAux tl (c :: acc)

def splitWS (l : List Char) : List (List Char) := splitWSAux l []

/-! ### Exact decimals -/

/-- `rust_decimal::Decimal::from_str_exact`, modelled with exact rational
values: an optional sign, then decimal digits with at most one decimal point
(underscore separators permitted after a digit), requiring at least one digit.
The 28-significant-digit limit of `Decimal` is not modelled. -/
def decFromChars : List Char → Int → Bool → Bool → Nat → Option (Int × Nat)
  | [], m, sawDigit, _, scale => if sawDigit then some (m, scale) else none
  | c :: rest, m, sawDigit, sawPoint, scale =>
    if c.isDigit then
      decFromChars rest (m * 10 + (c.toNat - 48)) true sawPoint
        (if sawPoint then scale + 1 else scale)
    else if c = '.' then
      if sawPoint then none else decFromChars rest m sawDigit true scale
    else if c = '_' then
      if sawDigit then decFromChars rest m sawDigit sawPoint scale else none
    else none

def decimalFromStrExact (l : List Char) : Option Rat :=
  let (sign, body) : Int × List Char :=
    match l with
    | '-' :: rest => (-1, rest)
    | '+' :: rest => (1, rest)
    | _ => (1, l)
  match decFromChars body 0 false false 0 with
  | none => none
  | some (m, scale) => some (Rat.divInt (sign * m) (pow10 scale))

/-- String front-end for `decimalFromStrExact`. -/
def Decimal.fromStrExact (s : String) : Option Rat :=
  decimalFromStrExact s.toList

/-! ### Core data types (`src/core/types.rs`, `src/core/types/transaction.rs`) -/

structure Amount where
  number : Rat
  currency : String
deriving DecidableEq, Repr

def Amount.new (number : Rat) (currency : String) : Amount := ⟨number, currency⟩

structure Cost where
  amount : Amount
deriving DecidableEq, Repr

inductive CostType where
  | Known (c : Cost)
  | Automatic
deriving DecidableEq, Repr

structure Price where
  amount : Amount
deriving DecidableEq, Repr

structure Posting where
  account : String
  amount : Amount
  price : Option Price
  cost : Option CostType
deriving DecidableEq, Repr

inductive TransactionFlag where
  | OK
  | Error
deriving DecidableEq, Repr

structure Date where
  year : Int
  month : Nat
  day : Nat
deriving DecidableEq, Repr

structure Transaction where
  date : Date
  flag : TransactionFlag
  payee : Option String
  narration : Option String
  postings : List Posting
deriving DecidableEq, Repr

structure Open where
  date : Date
  account : String
  allowed_currencies : Option (List String)
deriving DecidableEq, Repr

structure Close where
  date : Date
  account : String
deriving DecidableEq, Repr

structure Balance where
  date : Date
  account : String
  amount : Amount
deriving DecidableEq, Repr

structure Commodity where
  date : Date
  currency : String
deriving DecidableEq, Repr

structure PriceEntry where
  date : Date
  currency : String
  amount : Amount
deriving DecidableEq, Repr

inductive EntryVariant where
  | Transaction (t : Transaction)
  | Balance (b : Balance)
  | Open (o : Open)
  | Close (c : Close)
  | Commodity (c : Commodity)
  | PriceEntry (p : PriceEntry)
deriving DecidableEq, Repr

/-! ### Amount grammar -/

/-- Modelled from the spec: the repository's `impl TryFrom<&str> for Amount`
is referenced by `consume_amount` and the price/cost grammar
(`amount_str.try_into()`), but its definition is not among the provided
sources — only its callers and tests are.  Per spec §4.3/§8: surrounding
whitespace is tolerated; the currency is the maximal run of alphabetic
characters beginning at the first alphabetic character; the numeric portion
before it is parsed with exact decimal semantics; errors are: no currency
found, extraneous input remaining after the currency, malformed numeric
literal. -/
def Amount.tryFrom (s : String) : Except String Amount :=
  let l := trimChars s.toList
  match l.findIdx? alphaChar with
  | none => .error ("No currency found: " ++ s)
  | some i =>
    let currency := (l.drop i).takeWhile alphaChar
    let after := (l.drop i).dropWhile alphaChar
    if after.isEmpty then
      match decimalFromStrExact (trimChars (l.take i)) with
      | some q => .ok ⟨q, String.mk currency⟩
      | none => .error ("unable to parse amount number: " ++ s)
    else .error ("unexpected trailing input after currency: " ++ s)

/-- `consume_amount` from `src/io/parser.rs`: locate the first alphabetic
character, extend to the maximal alphabetic run, split the input there, and
parse the left part as an `Amount`; the right part is returned unconsumed. -/
def consumeAmount (input : String) : Except String (Amount × String) :=
  let l := input.toList
  match l.findIdx? alphaChar with
  | none => .error ("No currency found: " ++ input)
  | some cs =>
    let ce := cs + (((l.drop cs).findIdx? (fun c => !alphaChar c)).getD (l.length - cs))
    match Amount.tryFrom (String.mk (l.take ce)) with
    | .error e => .error e
    | .ok a => .ok (a, String.mk (l.drop ce))

/-! ### Tokenizer (`TokenIterator` in `src/io/parser/statement_iterator.rs`) -/

/-- The token stream produced by a `TokenIterator` on a single-line string:
the input is trimmed, the trailing same-line comment is removed, and the rest
is split into whitespace-delimited nonempty tokens. -/
def tokenizeLine (s : String) : List String :=
  (splitWS (trimCommentAtEnd (trimChars s.toList))).map (fun l => String.mk l)

/-- `TokenIterator::new` panics on multi-line input; otherwise the iterator
yields `tokenizeLine`. -/
def tokenizeP (s : String) : PRes String (List String) :=
  if s.toList.contains '\n' then
    .panic "TokenIterator does not support multiline strings"
  else
    .ok (tokenizeLine s)

/-- Rust `str::trim_matches(c)`: strip all leading and all trailing
occurrences of `c`. -/
def trimMatchesChar (c : Char) (s : String) : String :=
  String.mk (((s.toList.dropWhile (fun d => d = c)).reverse.dropWhile
    (fun d => d = c)).reverse)

/-! ### Dates (`jiff::civil::Date`) -/

def isLeapYear (y : Int) : Bool :=
  (y % 4 = 0 && y % 100 ≠ 0) || y % 400 = 0

def daysInMonth (y : Int) (m : Nat) : Nat :=
  if m = 2 then (if isLeapYear y then 29 else 28)
  else if m = 4 || m = 6 || m = 9 || m = 11 then 30
  else 31

def digitVal (c : Char) : Nat := c.toNat - 48

/-- `jiff::civil::Date::from_str`, restricted to the plain ISO
`YYYY-MM-DD` calendar-date form used throughout the ledger grammar (jiff's
extended forms, e.g. signed six-digit years, are not modelled).  The calendar
validity of month and day is checked as jiff does. -/
def Date.fromStr (s : String) : Option Date :=
  match s.toList with
  | [a, b, c, d, e, f, g, h, i, j] =>
    if a.isDigit && b.isDigit && c.isDigit && d.isDigit && e = '-' &&
       f.isDigit && g.isDigit && h = '-' && i.isDigit && j.isDigit then
      let year : Int :=
        (digitVal a * 1000 + digitVal b * 100 + digitVal c * 10 + digitVal d : Nat)
      let month := digitVal f * 10 + digitVal g
      let day := digitVal i * 10 + digitVal j
      if 1 ≤ month && month ≤ 12 && 1 ≤ day && day ≤ daysInMonth year month then
        some ⟨year, month, day⟩
      else none
    else none
  | _ => none

/-! ### Balance validation (`src/core/types.rs`, `src/core/types/transaction.rs`) -/

/-- Rendering of a `Decimal` for `Display`.  The `Rat` embedding does not
track the scale a `Decimal` carries, so trailing fractional zeros of the Rust
rendering are not reproduced; no property proved below depends on this
rendering. -/
def ratDecimalString (q : Rat) : String :=
  match (List.range 29).find? (fun k => (10 : Nat) ^ k % q.den = 0) with
  | some k =>
    let m : Int := q.num * (((10 : Nat) ^ k / q.den : Nat) : Int)
    let n := m.natAbs
    let intPart := n / 10 ^ k
    let frac := n % 10 ^ k
    let sign := if m < 0 then "-" else ""
    if k = 0 then sign ++ toString intPart
    else
      let fs := toString frac
      sign ++ toString intPart ++ "." ++
        String.mk (List.replicate (k - fs.length) '0') ++ fs
  | none => toString q.num ++ "/" ++ toString q.den

/-- `Display for Amount`: `"{number} {currency}"`. -/
def displayAmount (a : Amount) : String :=
  ratDecimalString a.number ++ " " ++ a.currency

/-- `Display for Transaction` delegates to `derive(Debug)` pretty-printing
(`{:#?}`).  The exact rendering is irrelevant to every property proved in
this file and is modelled by a summary of the postings. -/
def debugFmtTransaction (t : Transaction) : String :=
  String.intercalate ", "
    (t.postings.map (fun p => p.account ++ " " ++ displayAmount p.amount))

/-- The accumulating loop of `sum_amounts_it`: remembers the first currency
seen and errors at the first amount whose currency differs from it. -/
def sumGo : Option String → Rat → List Amount → Except String (Option String × Rat)
  | cur, tot, [] => .ok (cur, tot)
  | cur, tot, a :: rest =>
    match cur with
    | some c =>
      if c ≠ a.currency then
        .error ("Multiple currencies in given amounts: " ++ c ++ " and " ++ a.currency)
      else
        sumGo (some c) (decAdd tot a.number) rest
    | none => sumGo (some a.currency) (decAdd tot a.number) rest

/-- `sum_amounts_it` from `src/core/types.rs`. -/
def sumAmountsIt (amounts : List Amount) : Except String Amount :=
  match sumGo none 0 amounts with
  | .error e => .error e
  | .ok (cur, tot) =>
    match cur with
    | none => .error "No amounts in transaction"
    | some c => .ok ⟨tot, c⟩

/-- `Transaction::check` from `src/core/types/transaction.rs`: trivially
succeed on an empty posting list; otherwise sum the posting amounts and fail
unless the total is exactly zero. -/
def Transaction.check (t : Transaction) : Except String Unit :=
  if t.postings.isEmpty then .ok ()
  else
    match sumAmountsIt (t.postings.map (fun p => p.amount)) with
    | .error x =>
      .error ("Invalid collection of amounts in postings: Error " ++ x ++
        ". Transaction: " ++ debugFmtTransaction t)
    | .ok sum =>
      if sum.number ≠ 0 then
        .error ("Transaction not balanced: total is " ++ displayAmount sum)
      else .ok ()

/-! ### A backtracking matcher for the price/cost regex

`parse_price_and_cost` in `src/io/parser/transaction_parsing.rs` matches the
anchored regex

  `^((@ *(?P<unitpr>A))|(@@ *(?P<totpr>A)))? *((LB *(?P<unitcost>A)RB)|(LB LB *(?P<totcost>A *)RB RB))?$`

with `A = (\d+.*\w+)` (`LB`/`RB` denoting the brace characters).  The fixed
regex is embedded as a syntax tree and run with a leftmost-first backtracking
matcher (greedy stars, left-preferring alternation), which coincides with the
`regex` crate's leftmost-first match semantics on this anchored pattern.
Since the pattern is anchored on both sides, `captures_iter` yields at most
one capture set, modelled as `runPCRegex`. -/

inductive GTag where
  | unitpr
  | totpr
  | unitcost
  | totcost
deriving DecidableEq, Repr

structure PCCaps where
  unitpr : Option (List Char) := none
  totpr : Option (List Char) := none
  unitcost : Option (List Char) := none
  totcost : Option (List Char) := none
deriving DecidableEq, Repr

def PCCaps.set (cp : PCCaps) : GTag → List Char → PCCaps
  | .unitpr, v => { cp with unitpr := some v }
  | .totpr, v => { cp with totpr := some v }
  | .unitcost, v => { cp with unitcost := some v }
  | .totcost, v => { cp with totcost := some v }

inductive RE where
  | eps
  | cls (p : Char → Bool)
  | cat (a b : RE)
  | alt (a b : RE)
  | starCls (p : Char → Bool)
  | group (g : GTag) (r : RE)

/-- Greedy star over a character class: try the longest run first and back
off one character at a time. -/
def starTry (k : List Char → PCCaps → Option PCCaps) (s : List Char)
    (cp : PCCaps) : Nat → Option PCCaps
  | 0 => k s cp
  | n + 1 =>
    match k (s.drop (n + 1)) cp with
    | some r => some r
    | none => starTry k s cp n

/-- Leftmost-first backtracking matcher in continuation style.  A capture
group records the span consumed by its body on the globally successful path. -/
def matchR : RE → List Char → PCCaps → (List Char → PCCaps → Option PCCaps) →
    Option PCCaps
  | .eps, s, cp, k => k s cp
  | .cls p, s, cp, k =>
    match s with
    | [] => none
    | c :: rest => if p c then k rest cp else none
  | .cat a b, s, cp, k => matchR a s cp (fun s1 c1 => matchR b s1 c1 k)
  | .alt a b, s, cp, k =>
    match matchR a s cp k with
    | some r => some r
    | none => matchR b s cp k
  | .starCls p, s, cp, k => starTry k s cp (s.takeWhile p).length
  | .group g r, s, cp, k =>
    matchR r s cp (fun s1 c1 => k s1 (c1.set g (s.take (s.length - s1.length))))

def chr (c : Char) : RE := .cls (fun d => d = c)

def spStar : RE := .starCls (fun c => c = ' ')

def plusCls (p : Char → Bool) : RE := .cat (.cls p) (.starCls p)

/-- Regex `\d` restricted to ASCII. -/
def digitChar (c : Char) : Bool := c.isDigit

/-- Regex `\w` restricted to ASCII. -/
def wordChar (c : Char) : Bool := c.isAlphanum || c = '_'

/-- Regex `.` (anything but a newline). -/
def dotChar (c : Char) : Bool := c ≠ '\n'

/-- The amount sub-pattern `(\d+.*\w+)` (its unnamed group is irrelevant). -/
def amntCore : RE := .cat (plusCls digitChar) (.cat (.starCls dotChar) (plusCls wordChar))

/-- The full anchored price/cost pattern. -/
def pcRegex : RE :=
  let priceRE := RE.alt
    (.cat (chr '@') (.cat spStar (.group .unitpr amntCore)))
    (.cat (chr '@') (.cat (chr '@') (.cat spStar (.group .totpr amntCore))))
  let costRE := RE.alt
    (.cat (chr lbrace) (.cat spStar (.cat (.group .unitcost amntCore) (chr rbrace))))
    (.cat (chr lbrace) (.cat (chr lbrace) (.cat spStar (.cat
      (.group .totcost (.cat amntCore spStar)) (.cat (chr rbrace) (chr rbrace))))))
  .cat (.alt priceRE .eps) (.cat spStar (.alt costRE .eps))

/-- Run the pattern against the whole (already trimmed) input.  When the
input does not match, no capture set is produced, which is modelled by the
empty capture record (the Rust loop body then never runs, leaving price and
cost unset — observationally identical). -/
def runPCRegex (s : List Char) : PCCaps :=
  (matchR pcRegex s {} (fun rest cp => if rest.isEmpty then some cp else none)).getD {}

/-! ### Price/cost grammar (`parse_price_and_cost`) -/

structure Parsed (α : Type) where
  data : α
  per_unit : Bool
deriving DecidableEq, Repr

def pacPrice (caps : PCCaps) : Except String (Option (Parsed Price)) :=
  match caps.unitpr with
  | some s =>
    match Amount.tryFrom (String.mk s) with
    | .error e => .error e
    | .ok a => .ok (some ⟨⟨a⟩, true⟩)
  | none =>
    match caps.totpr with
    | some s =>
      match Amount.tryFrom (String.mk s) with
      | .error e => .error e
      | .ok a => .ok (some ⟨⟨a⟩, false⟩)
    | none => .ok none

def pacCost (caps : PCCaps) : Except String (Option (Parsed CostType)) :=
  match caps.unitcost with
  | some s =>
    match Amount.tryFrom (String.mk s) with
    | .error e => .error e
    | .ok a => .ok (some ⟨.Known ⟨a⟩, true⟩)
  | none =>
    match caps.totcost with
    | some s =>
      match Amount.tryFrom (String.mk s) with
      | .error e => .error e
      | .ok a => .ok (some ⟨.Known ⟨a⟩, false⟩)
    | none => .ok none

/-- `parse_price_and_cost` from `src/io/parser/transaction_parsing.rs`. -/
def parsePriceAndCost (input : String) :
    Except String (Option (Parsed Price) × Option (Parsed CostType)) :=
  let inp := trimChars input.toList
  if inp.isEmpty then .ok (none, none)
  else
    let caps := runPCRegex inp
    match pacPrice caps with
    | .error e => .error e
    | .ok price =>
      match pacCost caps with
      | .error e => .error e
      | .ok cost =>
        if price.isNone && cost.isNone then
          .error ("unable to parse `" ++ String.mk inp ++ "`")
        else .ok (price, cost)

/-! ### Posting and transaction assembly (`src/io/parser/transaction_parsing.rs`) -/

def divByZeroMsg : String := "Division by zero"

/-- Price normalization step of `Posting::try_from`.  The `Amount / Decimal`
division operator is declared in the repository's `core::types` module but is
not among the provided sources; modelled from the spec (§4.4): it divides the
amount's number and keeps its currency.  `rust_decimal` division panics on a
zero divisor. -/
def normPriceStep (pr : Option (Parsed Price)) (n : Rat) : PRes String (Option Price) :=
  match pr with
  | none => .ok none
  | some p =>
    if p.per_unit then .ok (some p.data)
    else if decAbs n = 0 then .panic divByZeroMsg
    else .ok (some ⟨⟨decDiv p.data.amount.number (decAbs n), p.data.amount.currency⟩⟩)

/-- Cost normalization step of `Posting::try_from`: a total cost must be
`Known` (the `.unwrap()` panics on `Automatic`) and is divided by the
absolute posting quantity. -/
def normCostStep (co : Option (Parsed CostType)) (n : Rat) : PRes String (Option CostType) :=
  match co with
  | none => .ok none
  | some c =>
    if c.per_unit then .ok (some c.data)
    else
      match c.data with
      | .Known k =>
        if decAbs n = 0 then .panic divByZeroMsg
        else .ok (some (.Known ⟨⟨decDiv k.amount.number (decAbs n), k.amount.currency⟩⟩))
      | .Automatic => .panic "called `Option::unwrap()` on a `None` value"

/-- `Posting::try_from(&str)`. -/
def postingTryFrom (input : String) : PRes String Posting :=
  match splitOnceChar ' ' input.toList with
  | none => .err ("No account in posting: " ++ input)
  | some (accL, remainL) =>
    match consumeAmount (String.mk remainL) with
    | .error e => .err e
    | .ok (amount, remain2) =>
      match parsePriceAndCost remain2 with
      | .error e => .err e
      | .ok (pr, co) =>
        match normPriceStep pr amount.number with
        | .panic m => .panic m
        | .err e => .err e
        | .ok price =>
          match normCostStep co amount.number with
          | .panic m => .panic m
          | .err e => .err e
          | .ok cost => .ok ⟨String.mk accL, amount, price, cost⟩

/-- `parse_flag`. -/
def parseFlag (s : String) : Option TransactionFlag :=
  if s = "*" then some .OK else if s = "!" then some .Error else none

def quotedTokOK (t : String) : Bool :=
  decide (t.toList.head? = some '"') || decide (t.toList.getLast? = some '"')

/-- The token loop of `parse_narration_and_payee`: a token with a quote at
neither end is an error; the first two (quote-trimmed) tokens fill the two
slots; a third is an error. -/
def pnpGo (header : String) :
    List String → Option String → Option String →
      Except String (Option String × Option String)
  | [], f, s => if s.isSome then .ok (f, s) else .ok (none, f)
  | t :: rest, f, s =>
    if !quotedTokOK t then
      .error ("Invalid transaction header: " ++ header ++
        ". Narration/payee must be quoted")
    else
      let tr := trimMatchesChar '"' t
      match f with
      | none => pnpGo header rest (some tr) s
      | some _ =>
        match s with
        | none => pnpGo header rest f (some tr)
        | some _ =>
          .error ("Too many quoted strings in transaction header: " ++ header)

/-- `parse_narration_and_payee`: returns `(payee, narration)`. -/
def parseNarrationAndPayee (header : String) :
    PRes String (Option String × Option String) :=
  match tokenizeP header with
  | .panic m => .panic m
  | .err e => .err e
  | .ok toks =>
    match pnpGo header toks none none with
    | .error e => .err e
    | .ok r => .ok r

/-- Strip one trailing carriage return, as `str::lines` does per line. -/
def stripCr (l : List Char) : List Char :=
  if l.getLast? = some '\r' then l.dropLast else l

/-- One-pass scan behind `str::lines()`: a piece is emitted at every
newline (even when empty); the final piece is emitted only when nonempty
(the line terminator on the last line is optional); one trailing `'\r'` is
stripped from each piece.  `acc` holds the reversed characters of the piece
being read. -/
def linesAux : List Char → List Char → List (List Char)
  | [], acc => if acc.isEmpty then [] else [stripCr acc.reverse]
  | c :: tl, acc =>
    if c = '\n' then stripCr acc.reverse :: linesAux tl []
    else linesAux tl (c :: acc)

/-- Rust `str::lines()`. -/
def rustLines (s : String) : List String :=
  (linesAux s.toList []).map (fun l => String.mk l)

/-- The posting loop of `Transaction::try_from((Date, TransactionFlag, &str))`:
per line, trim the trailing comment and whitespace, skip the line if now
empty, and otherwise parse a `Posting`, aborting the transaction on failure. -/
def postingsLoop : List String → PRes String (List Posting)
  | [] => .ok []
  | line :: rest =>
    let sanitized := String.mk (trimChars (trimCommentAtEnd line.toList))
    if sanitized.isEmpty then postingsLoop rest
    else
      match postingTryFrom sanitized with
      | .err e => .err ("Unable to parse posting '" ++ line ++ "': " ++ e)
      | .panic m => .panic m
      | .ok p =>
        match postingsLoop rest with
        | .ok ps => .ok (p :: ps)
        | .err e => .err e
        | .panic m => .panic m

/-- `Transaction::try_from((Date, TransactionFlag, &str))`. -/
def transactionTryFrom (date : Date) (flag : TransactionFlag)
    (statement : String) : PRes String Transaction :=
  let (header, postingsStr) :=
    (splitOnceChar '\n' statement.toList).getD (statement.toList, [])
  match parseNarrationAndPayee (String.mk (trimChars header)) with
  | .panic m => .panic m
  | .err e => .err e
  | .ok (payee, narration) =>
    match postingsLoop (rustLines (String.mk postingsStr)) with
    | .panic m => .panic m
    | .err e => .err e
    | .ok postings => .ok ⟨date, flag, payee, narration, postings⟩

/-! ### Statement segmentation (`StatementIterator` in
`src/io/parser/statement_iterator.rs`) -/

/-- The `(start, end)` offset pairs produced by `LineIterator`, as a
character-by-character scan: `cur` is the start offset of the line being
read and `pos` the offset of the next character.  A line is emitted at every
newline; a final line without a terminator is emitted only when nonempty
(`LineIterator::next` returns `None` once `position ≥ size`). -/
def lineScan : List Char → Nat → Nat → List (Nat × Nat)
  | [], cur, pos => if cur < pos then [(cur, pos)] else []
  | c :: tl, cur, pos =>
    if c = '\n' then (cur, pos) :: lineScan tl (pos + 1) (pos + 1)
    else lineScan tl cur (pos + 1)

def lineSpans (l : List Char) : List (Nat × Nat) := lineScan l 0 0

/-- `new_statement_matcher`: `is_match` of the anchored regex
`^\d{4}-\d{2}-\d{2}.*` (a line starting with a date). -/
def isStatementStart (line : List Char) : Bool :=
  match line with
  | a :: b :: c :: d :: e :: f :: g :: h :: i :: j :: _ =>
    a.isDigit && b.isDigit && c.isDigit && d.isDigit && e = '-' &&
    f.isDigit && g.isDigit && h = '-' && i.isDigit && j.isDigit
  | _ => false

/-- `new_multiline_statement_matcher`: `is_match` of
`^\d{4}-\d{2}-\d{2} +\*.*` (a date, one or more spaces, then `*`). -/
def isMultilineStart (line : List Char) : Bool :=
  isStatementStart line &&
  (let rest := line.drop 10
   let sp := rest.takeWhile (fun c => c = ' ')
   decide (0 < sp.length) && ((rest.drop sp.length).head? = some '*'))

/-- `skip_line`: blank lines, comment-initial lines and lines starting with
`*` are not significant for the segmentation state machine. -/
def skipLine (line : List Char) : Bool :=
  match line with
  | [] => true
  | c :: _ => isCommentChar c || c = '*'

inductive SegState where
  | searching
  | readingML (startPos endPos : Nat)

/-- The state machine of `StatementIterator::next`, iterated to exhaustion.
In `searching` state a single-statement line is yielded *trimmed*; a
multiline start switches to reading mode with the span's end initialised to
its start.  In reading mode, skippable lines do not extend the span; a new
multiline start yields the current raw span; a new single-statement line
yields the current raw span followed by that line's *untrimmed* slice
(`FinishedMultilineFoundSingle`); any other line extends the span.  An
unrecognised top-level line panics. -/
def segGo (data : List Char) : List (Nat × Nat) → SegState → PRes String (List String)
  | [], .searching => .ok []
  | (s, e) :: rest, .searching =>
    let line := trimChars (sliceChars data s e)
    if skipLine line then segGo data rest .searching
    else if isMultilineStart line then segGo data rest (.readingML s s)
    else if isStatementStart line then
      match segGo data rest .searching with
      | .ok tl => .ok (String.mk line :: tl)
      | .err er => .err er
      | .panic m => .panic m
    else .panic ("Unhandled line: " ++ String.mk line)
  | [], .readingML startPos _ => .ok [String.mk (sliceChars data startPos data.length)]
  | (ls, le) :: rest, .readingML startPos endPos =>
    let line := trimChars (sliceChars data ls le)
    if skipLine line then segGo data rest (.readingML startPos endPos)
    else if isMultilineStart line then
      match segGo data rest (.readingML ls ls) with
      | .ok tl => .ok (String.mk (sliceChars data startPos endPos) :: tl)
      | .err er => .err er
      | .panic m => .panic m
    else if isStatementStart line then
      match segGo data rest .searching with
      | .ok tl => .ok (String.mk (sliceChars data startPos endPos) ::
          String.mk (sliceChars data ls le) :: tl)
      | .err er => .err er
      | .panic m => .panic m
    else segGo data rest (.readingML startPos le)

/-- The full statement sequence produced by `StatementIterator::new(data)`. -/
def segmentStatements (input : String) : PRes String (List String) :=
  segGo input.toList (lineSpans input.toList) .searching

/-! ### Entry dispatch (`StatementParser` in `src/io/parser.rs`) -/

structure ParseError where
  context : String
  failed_statement : String
deriving DecidableEq, Repr

/-- `date_and_cmd`: split the leading date token at the first space, parse
it, then split the next whitespace-delimited token as the command.  (The
text of jiff's date-parse error message is not modelled.) -/
def dateAndCmd (statement : String) : Except String (Date × String × String) :=
  let l := trimStartChars statement.toList
  match splitOnceChar ' ' l with
  | none => .error ("No date in entry: " ++ statement)
  | some (dateStr, remain0) =>
    match Date.fromStr (String.mk dateStr) with
    | none => .error ("invalid date: " ++ String.mk dateStr)
    | some date =>
      let remain := trimStartChars remain0
      match remain.findIdx? wsChar with
      | none =>
        let cmd := trimChars remain
        if cmd.isEmpty then .error ("No command in entry: " ++ statement)
        else .ok (date, String.mk cmd, "")
      | some idx =>
        let cmd := remain.take idx
        if cmd.isEmpty then .error ("No command in entry: " ++ statement)
        else .ok (date, String.mk cmd, String.mk (remain.drop idx))

def getNextTokenMsg (tokenType : String) : String := "No " ++ tokenType ++ " found"

/-- `err_if_more_tokens`: the error message joins the tokens remaining
*after* the first unexpected one (which the Rust code has already consumed). -/
def errIfMoreMsg (tokenType : String) (restTokens : List String) : String :=
  "Unexpected remaining input in " ++ tokenType ++ " parsing: `" ++
    String.intercalate " " restTokens ++ "`"

/-- `StatementParser::parse_open`. -/
def parseOpen (date : Date) (remaining : String) : PRes String Open :=
  match tokenizeP remaining with
  | .panic m => .panic m
  | .err e => .err e
  | .ok toks =>
    match toks with
    | [] => .err (getNextTokenMsg "account")
    | account :: rest =>
      .ok ⟨date, account, if rest.isEmpty then none else some rest⟩

/-- `StatementParser::parse_close`. -/
def parseClose (date : Date) (remaining : String) : PRes String Close :=
  match tokenizeP remaining with
  | .panic m => .panic m
  | .err e => .err e
  | .ok toks =>
    match toks with
    | [] => .err (getNextTokenMsg "close")
    | account :: rest =>
      match rest with
      | [] => .ok ⟨date, account⟩
      | _ :: more => .err (errIfMoreMsg "close" more)

/-- `StatementParser::parse_commodity`. -/
def parseCommodity (date : Date) (remaining : String) : PRes String Commodity :=
  let commodity := trimChars remaining.toList
  if commodity.isEmpty then .err "No commodity specified in entry"
  else if commodity.contains ' ' then
    .err ("unexpected remaining input in commodity parsing: `" ++
      String.mk commodity ++ "`")
  else .ok ⟨date, String.mk commodity⟩

/-- `StatementParser::parse_str_and_price`: takes three whitespace tokens —
the name, the number, and the currency — requires the input to end there,
and parses the number with `Decimal::from_str_exact`.  (The text of
rust_decimal's error payload is not modelled.) -/
def parseStrAndPrice (remaining : String) (tokenType : String) :
    PRes String (String × Amount) :=
  match tokenizeP remaining with
  | .panic m => .panic m
  | .err e => .err e
  | .ok toks =>
    match toks with
    | [] => .err (getNextTokenMsg tokenType)
    | outStr :: rest1 =>
      match rest1 with
      | [] => .err (getNextTokenMsg "amount")
      | amntString :: rest2 =>
        match rest2 with
        | [] => .err (getNextTokenMsg "currency")
        | currency :: rest3 =>
          match rest3 with
          | _ :: more => .err (errIfMoreMsg tokenType more)
          | [] =>
            match Decimal.fromStrExact amntString with
            | none =>
              .err ("unable to parse amount number in " ++ tokenType ++ " entry")
            | some number => .ok (outStr, Amount.new number currency)

/-- `StatementParser::parse_balance`. -/
def parseBalance (date : Date) (remaining : String) : PRes String Balance :=
  match parseStrAndPrice remaining "balance" with
  | .panic m => .panic m
  | .err e => .err e
  | .ok (account, amount) => .ok ⟨date, account, amount⟩

/-- `StatementParser::parse_price`. -/
def parsePrice (date : Date) (remaining : String) : PRes String PriceEntry :=
  match parseStrAndPrice remaining "price" with
  | .panic m => .panic m
  | .err e => .err e
  | .ok (currency, amount) => .ok ⟨date, currency, amount⟩

/-- `StatementParser::parse_entry` with the error context as a plain string;
every error site of the Rust code constructs its `ParseError` through
`new_parse_err`, which pairs the context with the full original statement
(`parseEntry` below adds that pairing uniformly). -/
def parseEntryAux (statement : String) : PRes String EntryVariant :=
  match dateAndCmd statement with
  | .error e => .err e
  | .ok (date, cmd, remain) =>
    let remaining := String.mk (trimCommentAtEnd remain.toList)
    match parseFlag cmd with
    | some flag =>
      match transactionTryFrom date flag remaining with
      | .panic m => .panic m
      | .err e => .err ("unable to parse transaction: " ++ e)
      | .ok t => .ok (.Transaction t)
    | none =>
      if cmd = "open" then
        match parseOpen date remaining with
        | .panic m => .panic m
        | .err e => .err e
        | .ok o => .ok (.Open o)
      else if cmd = "close" then
        match parseClose date remaining with
        | .panic m => .panic m
        | .err e => .err e
        | .ok c => .ok (.Close c)
      else if cmd = "balance" then
        match parseBalance date remaining with
        | .panic m => .panic m
        | .err e => .err e
        | .ok b => .ok (.Balance b)
      else if cmd = "commodity" then
        match parseCommodity date remaining with
        | .panic m => .panic m
        | .err e => .err e
        | .ok c => .ok (.Commodity c)
      else if cmd = "price" then
        match parsePrice date remaining with
        | .panic m => .panic m
        | .err e => .err e
        | .ok p => .ok (.PriceEntry p)
      else .err ("Unknown command `" ++ cmd ++ "` in entry")

/-- `StatementParser::new(statement).parse_entry()`. -/
def parseEntry (statement : String) : PRes ParseError EntryVariant :=
  match parseEntryAux statement with
  | .panic m => .panic m
  | .err ctx => .err ⟨ctx, statement⟩
  | .ok e => .ok e

/-! ### Parse result aggregation (`ParsedEntries` in `src/io/parser.rs`) -/

/-- `ParsedEntries` (the Rust field `open` is a Lean keyword and is renamed
`opens` here). -/
structure ParsedEntries where
  opens : List Open
  balance : List Balance
  close : List Close
  commodity : List Commodity
  price : List PriceEntry
  transactions : List Transaction
  unhandled_entries : List String
deriving DecidableEq, Repr

def ParsedEntries.default : ParsedEntries := ⟨[], [], [], [], [], [], []⟩

/-- `ParsedEntries::push`. -/
def ParsedEntries.push (pe : ParsedEntries) : EntryVariant → ParsedEntries
  | .Open o => { pe with opens := pe.opens ++ [o] }
  | .Balance b => { pe with balance := pe.balance ++ [b] }
  | .Close c => { pe with close := pe.close ++ [c] }
  | .Commodity c => { pe with commodity := pe.commodity ++ [c] }
  | .PriceEntry p => { pe with price := pe.price ++ [p] }
  | .Transaction t => { pe with transactions := pe.transactions ++ [t] }

/-- `ParsedEntries::push_result`: a success is routed to the matching
per-kind collection, a failure appends the failed statement's raw text to
`unhandled_entries`. -/
def ParsedEntries.pushResult (pe : ParsedEntries) :
    Except ParseError EntryVariant → ParsedEntries
  | .ok e => pe.push e
  | .error e =>
    { pe with unhandled_entries := pe.unhandled_entries ++ [e.failed_statement] }

/-- The `for_each` loop of `parse_entries_from_string`: parse each yielded
statement and push its result, propagating a panic. -/
def aggregate (pe : ParsedEntries) : List String → PRes String ParsedEntries
  | [] => .ok pe
  | s :: rest =>
    match parseEntry s with
    | .panic m => .panic m
    | .ok e => aggregate (pe.pushResult (.ok e)) rest
    | .err e => aggregate (pe.pushResult (.error e)) rest

/-- `parse_entries_from_string` (the unused file-path argument is dropped;
the function returns `Ok` whenever segmentation and parsing do not panic). -/
def parseEntriesFromString (input : String) : PRes String ParsedEntries :=
  match segmentStatements input with
  | .panic m => .panic m
  | .err e => .err e
  | .ok stmts => aggregate ParsedEntries.default stmts

/-! ### Spec-side definitions used by the theorem statements -/

/-- The entry a parse result contributes to the `open` collection. -/
def openOf (r : PRes ParseError EntryVariant) : Option Open :=
  match r with
  | .ok (.Open o) => some o
  | _ => none

def balanceOf (r : PRes ParseError EntryVariant) : Option Balance :=
  match r with
  | .ok (.Balance b) => some b
  | _ => none

def closeOf (r : PRes ParseError EntryVariant) : Option Close :=
  match r with
  | .ok (.Close c) => some c
  | _ => none

def commodityOf (r : PRes ParseError EntryVariant) : Option Commodity :=
  match r with
  | .ok (.Commodity c) => some c
  | _ => none

def priceOf (r : PRes ParseError EntryVariant) : Option PriceEntry :=
  match r with
  | .ok (.PriceEntry p) => some p
  | _ => none

def transactionOf (r : PRes ParseError EntryVariant) : Option Transaction :=
  match r with
  | .ok (.Transaction t) => some t
  | _ => none

/-- The raw text a parse result contributes to `unhandled_entries`. -/
def errTextOf (r : PRes ParseError EntryVariant) : Option String :=
  match r with
  | .err e => some e.failed_statement
  | _ => none

/-! ### The embedded decimal operations agree with rational arithmetic -/

theorem decAdd_eq (a b : Rat) : decAdd a b = a + b := by
  unfold decAdd
  conv_rhs => rw [← Rat.num_divInt_den a, ← Rat.num_divInt_den b]
  rw [Rat.divInt_add_divInt _ _ (by exact_mod_cast a.den_nz) (by exact_mod_cast b.den_nz)]

theorem decDiv_eq (a b : Rat) : decDiv a b = a / b := by
  unfold decDiv
  conv_rhs => rw [← Rat.num_divInt_den a, ← Rat.num_divInt_den b]
  rw [Rat.divInt_div_divInt]

theorem decAbs_eq (a : Rat) : decAbs a = |a| := by
  unfold decAbs
  rcases abs_cases a with ⟨h1, h2⟩ | ⟨h1, h2⟩
  · rw [h1]
    have h3 : Int.ofNat a.num.natAbs = a.num := by
      simpa using Int.natAbs_of_nonneg (Rat.num_nonneg.mpr h2)
    rw [h3, Rat.divInt_self]
  · rw [h1]
    have h3 : Int.ofNat a.num.natAbs = -a.num := by
      simpa using Int.ofNat_natAbs_of_nonpos (Rat.num_nonpos.mpr (le_of_lt h2))
    rw [h3, ← Rat.neg_divInt, Rat.divInt_self]

theorem decAbs_eq_zero_iff (a : Rat) : decAbs a = 0 ↔ a = 0 := by
  rw [decAbs_eq, abs_eq_zero]

/-!
## Claim C4 — segmentation of the reference input
-/

/-- Claim C4: on the given input the Statement Segmenter yields exactly four
statements in order; the third is the contiguous slice of the original
buffer from the start of the `2024-10-04 *` line (offset 79) through the end
of the `  Income:Salary -1600 CHF` line (offset 195), with the embedded
comment line preserved verbatim inside it. -/
theorem claim_C4 :
    segmentStatements "2017-12-01 commodity AMD\n2024-10-03 balance Assets:Depot:Cash 0 CHF\n; comment\n\n2024-10-04 *\n; comment in transaction\n  Assets:Depot:Cash   2100 CHF\n  Assets:Foo -500 CHF\n  Income:Salary -1600 CHF\n2017-12-06 commodity AMD" =
      .ok ["2017-12-01 commodity AMD",
        "2024-10-03 balance Assets:Depot:Cash 0 CHF",
        "2024-10-04 *\n; comment in transaction\n  Assets:Depot:Cash   2100 CHF\n  Assets:Foo -500 CHF\n  Income:Salary -1600 CHF",
        "2017-12-06 commodity AMD"] ∧
    String.mk (sliceChars ("2017-12-01 commodity AMD\n2024-10-03 balance Assets:Depot:Cash 0 CHF\n; comment\n\n2024-10-04 *\n; comment in transaction\n  Assets:Depot:Cash   2100 CHF\n  Assets:Foo -500 CHF\n  Income:Salary -1600 CHF\n2017-12-06 commodity AMD").toList 79 195) =
      "2024-10-04 *\n; comment in transaction\n  Assets:Depot:Cash   2100 CHF\n  Assets:Foo -500 CHF\n  Income:Salary -1600 CHF" := by
  constructor
  · decide
  · decide

/-!
## Claim C5 — unrecognised top-level lines
-/

/-- Claim C5 (amended): in searching state, a line that is not skippable and
matches neither statement-start pattern makes the Statement Segmenter panic
with a message naming the line — the line is not silently dropped, but the
failure is an uncontrolled panic, not a structured error. -/
theorem claim_C5 (data : List Char) (s e : Nat) (rest : List (Nat × Nat))
    (h1 : skipLine (trimChars (sliceChars data s e)) = false)
    (h2 : isMultilineStart (trimChars (sliceChars data s e)) = false)
    (h3 : isStatementStart (trimChars (sliceChars data s e)) = false) :
    segGo data ((s, e) :: rest) .searching =
      .panic ("Unhandled line: " ++ String.mk (trimChars (sliceChars data s e))) := by
  simp only [segGo, h1, h2, h3, Bool.false_eq_true, if_false]

/-- Claim C5 counterexample: on the line `foo bar` the segmenter panics; it
does not return a structured error as the claim demands. -/
theorem claim_C5_counterexample :
    segmentStatements "foo bar" = .panic "Unhandled line: foo bar" ∧
    ∀ er, segmentStatements "foo bar" ≠ .err er := by
  refine ⟨by decide, fun er h => ?_⟩
  rw [show segmentStatements "foo bar" = .panic "Unhandled line: foo bar" from by decide] at h
  exact absurd h (by simp)

/-- Claim C5 witness. -/
theorem claim_C5_witness :
    segGo "foo bar".toList ((0, 7) :: []) .searching =
      .panic ("Unhandled line: " ++ String.mk (trimChars (sliceChars "foo bar".toList 0 7))) :=
  claim_C5 "foo bar".toList 0 7 [] (by decide) (by decide) (by decide)

/-!
## Claim C8 — empty cost braces
-/

theorem pacCost_no_automatic {caps : PCCaps} {r : Option (Parsed CostType)}
    (h : pacCost caps = .ok r) :
    ∀ x, r = some x → ∃ k, x.data = CostType.Known k := by
  intro x hx
  subst hx
  unfold pacCost at h
  split at h
  · split at h
    · exact absurd h (by simp)
    · injection h with h'
      injection h' with h''
      rw [← h'']
      exact ⟨_, rfl⟩
  · split at h
    · split at h
      · exact absurd h (by simp)
      · injection h with h'
        injection h' with h''
        rw [← h'']
        exact ⟨_, rfl⟩
    · injection h with h'
      exact absurd h' (by simp)

theorem parsePriceAndCost_no_automatic {s : String} {pr : Option (Parsed Price)}
    {co : Option (Parsed CostType)} (h : parsePriceAndCost s = .ok (pr, co)) :
    ∀ x, co = some x → ∃ k, x.data = CostType.Known k := by
  unfold parsePriceAndCost at h
  dsimp only at h
  split at h
  · injection h with h'
    injection h' with h1 h2
    intro x hx
    rw [← h2] at hx
    exact absurd hx (by simp)
  · split at h
    · exact absurd h (by simp)
    · rename_i cost' hcost
      split at h
      · exact absurd h (by simp)
      · split at h
        · exact absurd h (by simp)
        · injection h with h'
          injection h' with h1 h2
          rw [← h2]
          exact pacCost_no_automatic (by assumption)

/-- Claim C8 (amended): a present-but-empty cost clause is *rejected*:
`parse_price_and_cost` fails on both `{}` and `{{}}` (the regex requires an
amount inside the braces), and no successful parse ever yields
`CostType::Automatic` — the parser only ever constructs `CostType::Known`. -/
theorem claim_C8 :
    parsePriceAndCost "\x7b\x7d" = .error "unable to parse `\x7b\x7d`" ∧
    parsePriceAndCost "\x7b\x7b\x7d\x7d" = .error "unable to parse `\x7b\x7b\x7d\x7d`" ∧
    ∀ (s : String) (pr : Option (Parsed Price)) (co : Option (Parsed CostType)),
      parsePriceAndCost s = .ok (pr, co) →
      ∀ x, co = some x → ∃ k, x.data = CostType.Known k :=
  ⟨by decide, by decide, fun _ _ _ h => parsePriceAndCost_no_automatic h⟩

/-- Claim C8 counterexample: on the empty cost clause `{}` the parser
returns an error instead of succeeding with `CostType::Automatic`. -/
theorem claim_C8_counterexample :
    parsePriceAndCost "\x7b\x7d" = .error "unable to parse `\x7b\x7d`" ∧
    ∀ pr co, parsePriceAndCost "\x7b\x7d" ≠ .ok (pr, co) := by
  refine ⟨by decide, fun pr co h => ?_⟩
  rw [show parsePriceAndCost "\x7b\x7d" = .error "unable to parse `\x7b\x7d`" from by decide] at h
  exact absurd h (by simp)

/-- Claim C8 witness: the no-`Automatic` clause applied to the successful
parse of ` {6 CHF}`. -/
theorem claim_C8_witness :
    ∃ k, (Parsed.mk (CostType.Known ⟨⟨6, "CHF"⟩⟩) true).data = CostType.Known k :=
  claim_C8.2.2 " \x7b6 CHF\x7d" none (some ⟨.Known ⟨⟨6, "CHF"⟩⟩, true⟩)
    (by decide) ⟨.Known ⟨⟨6, "CHF"⟩⟩, true⟩ rfl

/-!
## Claims C3 and C10 — price/cost normalization in `Posting::try_from`
-/

theorem postingTryFrom_eq {input : String} {accL remainL : List Char}
    {amount : Amount} {remain2 : String} {pr : Option (Parsed Price)}
    {co : Option (Parsed CostType)}
    (h1 : splitOnceChar ' ' input.toList = some (accL, remainL))
    (h2 : consumeAmount (String.mk remainL) = .ok (amount, remain2))
    (h3 : parsePriceAndCost remain2 = .ok (pr, co)) :
    postingTryFrom input =
      match normPriceStep pr amount.number with
      | .panic m => .panic m
      | .err e => .err e
      | .ok price =>
        match normCostStep co amount.number with
        | .panic m => .panic m
        | .err e => .err e
        | .ok cost => .ok ⟨String.mk accL, amount, price, cost⟩ := by
  simp only [postingTryFrom, h1, h2, h3]

/-- Claim C3: whenever a posting parses successfully (account split, amount,
and price/cost grammar all succeed) with a nonzero amount, the stored price
and cost are exactly the parsed ones for the per-unit forms, and are the
parsed totals divided exactly by the absolute value of the posting's own
amount number for the total forms; moreover, on the spec's reference inputs,
` @ 1 USD {{ 6.3CHF}}` parses to a per-unit `1 USD` price and a total
`6.3 CHF` cost, while `{7 CHF`, `@ 5 CHF @@ 50 CHF` and
`{5 USD} {{ 20 CHF}}` all fail. -/
theorem claim_C3 :
    (∀ (input : String) (accL remainL : List Char) (amount : Amount)
        (remain2 : String) (pr : Option (Parsed Price)) (co : Option (Parsed CostType)),
      splitOnceChar ' ' input.toList = some (accL, remainL) →
      consumeAmount (String.mk remainL) = .ok (amount, remain2) →
      parsePriceAndCost remain2 = .ok (pr, co) →
      amount.number ≠ 0 →
      ∃ p, postingTryFrom input = .ok p ∧
        p.account = String.mk accL ∧ p.amount = amount ∧
        p.price = pr.map (fun x =>
          if x.per_unit then x.data
          else ⟨⟨x.data.amount.number / |amount.number|, x.data.amount.currency⟩⟩) ∧
        p.cost = co.map (fun x =>
          if x.per_unit then x.data
          else
            match x.data with
            | .Known k => .Known ⟨⟨k.amount.number / |amount.number|, k.amount.currency⟩⟩
            | .Automatic => .Automatic)) ∧
    parsePriceAndCost " @ 1 USD \x7b\x7b 6.3CHF\x7d\x7d" =
      .ok (some ⟨⟨⟨1, "USD"⟩⟩, true⟩, some ⟨.Known ⟨⟨Rat.divInt 63 10, "CHF"⟩⟩, false⟩) ∧
    (parsePriceAndCost "\x7b7 CHF").isOk = false ∧
    (parsePriceAndCost "@ 5 CHF @@ 50 CHF").isOk = false ∧
    (parsePriceAndCost "\x7b5 USD\x7d \x7b\x7b 20 CHF\x7d\x7d").isOk = false := by
  refine ⟨?_, by decide, by decide, by decide, by decide⟩
  intro input accL remainL amount remain2 pr co h1 h2 h3 hnz
  have habs : ¬(decAbs amount.number = 0) := by
    rw [decAbs_eq_zero_iff]; exact hnz
  rw [postingTryFrom_eq h1 h2 h3]
  have hprice : normPriceStep pr amount.number =
      .ok (pr.map (fun x =>
        if x.per_unit then x.data
        else ⟨⟨x.data.amount.number / |amount.number|, x.data.amount.currency⟩⟩)) := by
    cases pr with
    | none => rfl
    | some x =>
      by_cases hu : x.per_unit
      · simp [normPriceStep, hu]
      · have habs2 : ¬(|amount.number| = 0) := by rw [abs_eq_zero]; exact hnz
        simp only [normPriceStep, hu, Bool.false_eq_true, if_false, decAbs_eq, decDiv_eq,
          if_neg habs2, Option.map_some']
  have hcost : normCostStep co amount.number =
      .ok (co.map (fun x =>
        if x.per_unit then x.data
        else
          match x.data with
          | .Known k => .Known ⟨⟨k.amount.number / |amount.number|, k.amount.currency⟩⟩
          | .Automatic => .Automatic)) := by
    cases co with
    | none => rfl
    | some x =>
      by_cases hu : x.per_unit
      · simp [normCostStep, hu]
      · obtain ⟨k, hk⟩ := parsePriceAndCost_no_automatic h3 x rfl
        have habs2 : ¬(|amount.number| = 0) := by rw [abs_eq_zero]; exact hnz
        simp only [normCostStep, hu, Bool.false_eq_true, if_false, hk, decAbs_eq, decDiv_eq,
          if_neg habs2, Option.map_some']
  rw [hprice, hcost]
  exact ⟨_, rfl, rfl, rfl, rfl, rfl⟩

/-- Claim C3 witness: the posting `Assets:X 2 CHF @@ 10 USD` stores the
total price `10 USD` divided by `|2|`. -/
theorem claim_C3_witness :
    ∃ p, postingTryFrom "Assets:X 2 CHF @@ 10 USD" = .ok p ∧
      p.account = String.mk "Assets:X".toList ∧ p.amount = ⟨2, "CHF"⟩ ∧
      p.price = (some ⟨⟨⟨10, "USD"⟩⟩, false⟩ : Option (Parsed Price)).map (fun x =>
        if x.per_unit then x.data
        else ⟨⟨x.data.amount.number / |(⟨2, "CHF"⟩ : Amount).number|, x.data.amount.currency⟩⟩) ∧
      p.cost = (none : Option (Parsed CostType)).map (fun x =>
        if x.per_unit then x.data
        else
          match x.data with
          | .Known k => .Known ⟨⟨k.amount.number / |(⟨2, "CHF"⟩ : Amount).number|, k.amount.currency⟩⟩
          | .Automatic => .Automatic) :=
  claim_C3.1 "Assets:X 2 CHF @@ 10 USD" "Assets:X".toList " 2 CHF @@ 10 USD".toList.tail
    ⟨2, "CHF"⟩ " @@ 10 USD" (some ⟨⟨⟨10, "USD"⟩⟩, false⟩) none
    (by decide) (by decide) (by decide) (by decide)

/-- Claim C10: when a posting parses with amount number exactly zero and its
price or cost clause used a total form (`@@` / `{{ }}`), `Posting::try_from`
divides by the absolute value of that zero amount and panics (`rust_decimal`
division by zero) instead of returning an error; with a nonzero amount number
the normalization never panics. -/
theorem claim_C10 :
    (∀ (input : String) (accL remainL : List Char) (amount : Amount)
        (remain2 : String) (pr : Option (Parsed Price)) (co : Option (Parsed CostType)),
      splitOnceChar ' ' input.toList = some (accL, remainL) →
      consumeAmount (String.mk remainL) = .ok (amount, remain2) →
      parsePriceAndCost remain2 = .ok (pr, co) →
      amount.number = 0 →
      ((∃ x, pr = some x ∧ x.per_unit = false) ∨ (∃ y, co = some y ∧ y.per_unit = false)) →
      postingTryFrom input = .panic "Division by zero") ∧
    (∀ (input : String) (accL remainL : List Char) (amount : Amount)
        (remain2 : String) (pr : Option (Parsed Price)) (co : Option (Parsed CostType)),
      splitOnceChar ' ' input.toList = some (accL, remainL) →
      consumeAmount (String.mk remainL) = .ok (amount, remain2) →
      parsePriceAndCost remain2 = .ok (pr, co) →
      amount.number ≠ 0 →
      ∀ m, postingTryFrom input ≠ .panic m) := by
  constructor
  · intro input accL remainL amount remain2 pr co h1 h2 h3 hz htot
    have habs : decAbs amount.number = 0 := by rw [decAbs_eq_zero_iff]; exact hz
    rw [postingTryFrom_eq h1 h2 h3]
    rcases htot with ⟨x, hx, hxu⟩ | ⟨y, hy, hyu⟩
    · subst hx
      simp only [normPriceStep, hxu, Bool.false_eq_true, if_false, if_pos habs,
        divByZeroMsg]
    · subst hy
      obtain ⟨k, hk⟩ := parsePriceAndCost_no_automatic h3 y rfl
      have hprice : ∃ price, normPriceStep pr amount.number = .ok price ∨
          normPriceStep pr amount.number = .panic "Division by zero" := by
        cases pr with
        | none => exact ⟨none, .inl rfl⟩
        | some x =>
          by_cases hu : x.per_unit
          · exact ⟨some x.data, .inl (by simp [normPriceStep, hu])⟩
          · exact ⟨none, .inr (by simp [normPriceStep, hu, if_pos habs, divByZeroMsg])⟩
      obtain ⟨price, hpr | hpr⟩ := hprice
      · rw [hpr]
        simp only [normCostStep, hyu, Bool.false_eq_true, if_false, hk, if_pos habs,
          divByZeroMsg]
      · rw [hpr]
  · intro input accL remainL amount remain2 pr co h1 h2 h3 hnz m
    have habs : ¬(decAbs amount.number = 0) := by rw [decAbs_eq_zero_iff]; exact hnz
    rw [postingTryFrom_eq h1 h2 h3]
    have hprice : ∃ price, normPriceStep pr amount.number = .ok price := by
      cases pr with
      | none => exact ⟨none, rfl⟩
      | some x =>
        by_cases hu : x.per_unit
        · exact ⟨some x.data, by simp [normPriceStep, hu]⟩
        · exact ⟨some ⟨⟨decDiv x.data.amount.number (decAbs amount.number),
              x.data.amount.currency⟩⟩,
            by simp only [normPriceStep, hu, Bool.false_eq_true, if_false, if_neg habs]⟩
    have hcost : ∃ cost, normCostStep co amount.number = .ok cost := by
      cases co with
      | none => exact ⟨none, rfl⟩
      | some y =>
        by_cases hu : y.per_unit
        · exact ⟨some y.data, by simp [normCostStep, hu]⟩
        · obtain ⟨k, hk⟩ := parsePriceAndCost_no_automatic h3 y rfl
          exact ⟨some (.Known ⟨⟨decDiv k.amount.number (decAbs amount.number),
              k.amount.currency⟩⟩),
            by simp only [normCostStep, hu, Bool.false_eq_true, if_false, hk, if_neg habs]⟩
    obtain ⟨price, hpr⟩ := hprice
    obtain ⟨cost, hco⟩ := hcost
    rw [hpr, hco]
    simp

/-- Claim C10 witness: `Assets:X 0 CHF @@ 5 USD` panics with division by
zero, while `Assets:X 2 CHF @@ 10 USD` never panics. -/
theorem claim_C10_witness :
    postingTryFrom "Assets:X 0 CHF @@ 5 USD" = .panic "Division by zero" ∧
    ∀ m, postingTryFrom "Assets:X 2 CHF @@ 10 USD" ≠ .panic m :=
  ⟨claim_C10.1 "Assets:X 0 CHF @@ 5 USD" "Assets:X".toList " 0 CHF @@ 5 USD".toList.tail
      ⟨0, "CHF"⟩ " @@ 5 USD" (some ⟨⟨⟨5, "USD"⟩⟩, false⟩) none
      (by decide) (by decide) (by decide) (by decide)
      (.inl ⟨⟨⟨⟨5, "USD"⟩⟩, false⟩, rfl, rfl⟩),
    claim_C10.2 "Assets:X 2 CHF @@ 10 USD" "Assets:X".toList " 2 CHF @@ 10 USD".toList.tail
      ⟨2, "CHF"⟩ " @@ 10 USD" (some ⟨⟨⟨10, "USD"⟩⟩, false⟩) none
      (by decide) (by decide) (by decide) (by decide)⟩

/-!
## Claim C7 — transaction header parsing
-/

/-- Claim C7 (amended): header tokenization splits on whitespace and is
*not* quote-aware; a token is rejected only when it has a double quote at
*neither* end (all leading/trailing quotes are then trimmed); zero accepted
tokens give `(payee, narration) = (None, None)`, one gives narration only,
two give payee then narration, and a third token is always an error. -/
theorem claim_C7 (header : String) (toks : List String)
    (htoks : tokenizeP header = .ok toks) :
    (toks = [] → parseNarrationAndPayee header = .ok (none, none)) ∧
    (∀ t, toks = [t] → quotedTokOK t = true →
      parseNarrationAndPayee header = .ok (none, some (trimMatchesChar '"' t))) ∧
    (∀ t1 t2, toks = [t1, t2] → quotedTokOK t1 = true → quotedTokOK t2 = true →
      parseNarrationAndPayee header =
        .ok (some (trimMatchesChar '"' t1), some (trimMatchesChar '"' t2))) ∧
    (∀ t rest, toks = t :: rest → quotedTokOK t = false →
      (parseNarrationAndPayee header).isErr = true) ∧
    (∀ t1 t2 rest, toks = t1 :: t2 :: rest → quotedTokOK t1 = true →
      quotedTokOK t2 = false → (parseNarrationAndPayee header).isErr = true) ∧
    (∀ t1 t2 t3 rest, toks = t1 :: t2 :: t3 :: rest → quotedTokOK t1 = true →
      quotedTokOK t2 = true → (parseNarrationAndPayee header).isErr = true) := by
  refine ⟨?_, ?_, ?_, ?_, ?_, ?_⟩
  · intro h
    subst h
    simp [parseNarrationAndPayee, htoks, pnpGo]
  · intro t h hq
    subst h
    simp [parseNarrationAndPayee, htoks, pnpGo, hq]
  · intro t1 t2 h hq1 hq2
    subst h
    simp [parseNarrationAndPayee, htoks, pnpGo, hq1, hq2]
  · intro t rest h hq
    subst h
    simp [parseNarrationAndPayee, htoks, pnpGo, hq, PRes.isErr]
  · intro t1 t2 rest h hq1 hq2
    subst h
    simp [parseNarrationAndPayee, htoks, pnpGo, hq1, hq2, PRes.isErr]
  · intro t1 t2 t3 rest h hq1 hq2
    subst h
    by_cases hq3 : quotedTokOK t3
    · simp [parseNarrationAndPayee, htoks, pnpGo, hq1, hq2, hq3, PRes.isErr]
    · simp only [Bool.not_eq_true] at hq3
      simp [parseNarrationAndPayee, htoks, pnpGo, hq1, hq2, hq3, PRes.isErr]

/-- Claim C7 counterexample: the tokenizer is not quote-aware, so the header
`"hello world"` — a single quoted string, which per the claim should give
narration `hello world` and no payee — instead splits into two tokens and
yields payee `hello` and narration `world`; and the token `foo"` (not a
double-quoted string) is accepted rather than rejected. -/
theorem claim_C7_counterexample :
    parseNarrationAndPayee "\"hello world\"" = .ok (some "hello", some "world") ∧
    (some "hello", some "world") ≠ ((none : Option String), some "hello world") ∧
    parseNarrationAndPayee "foo\"" = .ok (none, some "foo") := by
  refine ⟨by decide, by decide, by decide⟩

/-- Claim C7 witness: the two-token and error clauses applied to concrete
headers. -/
theorem claim_C7_witness :
    parseNarrationAndPayee "\"payee\" \"narration\"" =
      .ok (some (trimMatchesChar '"' "\"payee\""), some (trimMatchesChar '"' "\"narration\"")) ∧
    (parseNarrationAndPayee "bare").isErr = true :=
  ⟨(claim_C7 "\"payee\" \"narration\"" ["\"payee\"", "\"narration\""] (by decide)).2.2.1
      "\"payee\"" "\"narration\"" rfl (by decide) (by decide),
    (claim_C7 "bare" ["bare"] (by decide)).2.2.2.1 "bare" [] rfl (by decide)⟩

/-!
## Claim C9 — `balance` and `price` directive parsing
-/

/-- Claim C9 (amended): `parse_str_and_price` takes the first token as the
account/currency name, but then requires the amount's *number and currency
as two separate whitespace tokens* — the adjacent `<number><currency>` form
accepted by the Amount Grammar is *not* used here and is rejected; the
number is parsed exactly, any token after the currency is an error, and a
missing number or currency token is an error. -/
theorem claim_C9 :
    (∀ (remaining tokenType : String) (s : String) (a : Amount),
      parseStrAndPrice remaining tokenType = .ok (s, a) ↔
        ∃ n, tokenizeP remaining = .ok [s, n, a.currency] ∧
          Decimal.fromStrExact n = some a.number) ∧
    (∀ (remaining tokenType : String) (toks : List String),
      tokenizeP remaining = .ok toks → toks.length ≠ 3 →
      (parseStrAndPrice remaining tokenType).isErr = true) ∧
    (∀ (date : Date) (remaining s : String) (a : Amount),
      parseStrAndPrice remaining "balance" = .ok (s, a) →
      parseBalance date remaining = .ok ⟨date, s, a⟩) ∧
    (∀ (date : Date) (remaining s : String) (a : Amount),
      parseStrAndPrice remaining "price" = .ok (s, a) →
      parsePrice date remaining = .ok ⟨date, s, a⟩) := by
  refine ⟨?_, ?_, ?_, ?_⟩
  · intro remaining tokenType s a
    constructor
    · intro h
      unfold parseStrAndPrice at h
      cases ht : tokenizeP remaining with
      | panic m => rw [ht] at h; exact absurd h (by simp)
      | err e => rw [ht] at h; exact absurd h (by simp)
      | ok toks =>
        rw [ht] at h
        simp only at h
        rcases toks with _ | ⟨o, _ | ⟨n, _ | ⟨c, _ | ⟨extra, more⟩⟩⟩⟩
        · exact absurd h (by simp)
        · exact absurd h (by simp)
        · exact absurd h (by simp)
        · simp only at h
          cases hnum : Decimal.fromStrExact n with
          | none => rw [hnum] at h; exact absurd h (by simp)
          | some number =>
            rw [hnum] at h
            injection h with h'
            injection h' with hs ha
            subst hs
            subst ha
            refine ⟨n, ?_, ?_⟩
            · simpa [Amount.new] using ht
            · simpa [Amount.new] using hnum
        · exact absurd h (by simp)
    · intro ⟨n, ht, hd⟩
      obtain ⟨num, cur⟩ := a
      simp only at ht hd
      simp [parseStrAndPrice, ht, hd, Amount.new]
  · intro remaining tokenType toks ht hlen
    unfold parseStrAndPrice
    rw [ht]
    rcases toks with _ | ⟨o, _ | ⟨n, _ | ⟨c, _ | ⟨extra, more⟩⟩⟩⟩
    · simp [PRes.isErr]
    · simp [PRes.isErr]
    · simp [PRes.isErr]
    · exact absurd rfl hlen
    · simp [PRes.isErr]
  · intro date remaining s a h
    simp [parseBalance, h]
  · intro date remaining s a h
    simp [parsePrice, h]

/-- Claim C9 counterexample: the Amount Grammar (`consume_amount`) accepts
the adjacent form `5CHF`, but `balance Assets:Depot 5CHF` fails because
`parse_str_and_price` demands number and currency as separate tokens. -/
theorem claim_C9_counterexample :
    consumeAmount "5CHF" = .ok (⟨5, "CHF"⟩, "") ∧
    parseBalance ⟨2022, 1, 1⟩ "Assets:Depot 5CHF" = .err "No currency found" := by
  refine ⟨by decide, by decide⟩

/-- Claim C9 witness: the characterization applied to the spaced form and
the arity-error clause applied to the adjacent form. -/
theorem claim_C9_witness :
    parseStrAndPrice "Assets:Depot 5 CHF " "balance" = .ok ("Assets:Depot", ⟨5, "CHF"⟩) ∧
    (parseStrAndPrice "Assets:Depot 5CHF" "balance").isErr = true :=
  ⟨((claim_C9.1 "Assets:Depot 5 CHF " "balance" "Assets:Depot" ⟨5, "CHF"⟩).mpr
      ⟨"5", by decide, by decide⟩),
    claim_C9.2.1 "Assets:Depot 5CHF" "balance" ["Assets:Depot", "5CHF"]
      (by decide) (by decide)⟩

/-!
## Claim C2 — fault-isolating aggregation
-/

/-- Every error produced by `parse_entry` carries the full original
statement text as its `failed_statement` (all error sites go through
`new_parse_err`). -/
theorem parseEntry_err_failed {s : String} {e : ParseError}
    (h : parseEntry s = .err e) : e.failed_statement = s := by
  unfold parseEntry at h
  split at h
  · exact absurd h (by simp)
  · injection h with h'
    rw [← h']
  · exact absurd h (by simp)

theorem aggregate_spec (stmts : List String) :
    ∀ pe : ParsedEntries, (∀ s ∈ stmts, (parseEntry s).isPanic = false) →
    aggregate pe stmts = .ok
      ⟨pe.opens ++ stmts.filterMap (fun s => openOf (parseEntry s)),
       pe.balance ++ stmts.filterMap (fun s => balanceOf (parseEntry s)),
       pe.close ++ stmts.filterMap (fun s => closeOf (parseEntry s)),
       pe.commodity ++ stmts.filterMap (fun s => commodityOf (parseEntry s)),
       pe.price ++ stmts.filterMap (fun s => priceOf (parseEntry s)),
       pe.transactions ++ stmts.filterMap (fun s => transactionOf (parseEntry s)),
       pe.unhandled_entries ++ stmts.filterMap (fun s => errTextOf (parseEntry s))⟩ := by
  induction stmts with
  | nil => intro pe _; simp [aggregate]
  | cons s rest ih =>
    intro pe hnp
    have hs : (parseEntry s).isPanic = false := hnp s (by simp)
    have hrest : ∀ t ∈ rest, (parseEntry t).isPanic = false :=
      fun t ht => hnp t (by simp [ht])
    cases hps : parseEntry s with
    | panic m => rw [hps] at hs; simp [PRes.isPanic] at hs
    | ok e =>
      simp only [aggregate, hps]
      rw [ih (pe.pushResult (.ok e)) hrest]
      cases e <;>
        simp [ParsedEntries.pushResult, ParsedEntries.push, openOf, balanceOf, closeOf,
          commodityOf, priceOf, transactionOf, errTextOf, hps, List.filterMap_cons]
    | err e =>
      simp only [aggregate, hps]
      rw [ih (pe.pushResult (.error e)) hrest]
      simp [ParsedEntries.pushResult, openOf, balanceOf, closeOf,
        commodityOf, priceOf, transactionOf, errTextOf, hps, List.filterMap_cons]

theorem errTextOf_filter (stmts : List String) :
    stmts.filterMap (fun s => errTextOf (parseEntry s)) =
      stmts.filter (fun s => (parseEntry s).isErr) := by
  induction stmts with
  | nil => rfl
  | cons s rest ih =>
    cases hps : parseEntry s with
    | panic m =>
      have h1 : errTextOf (parseEntry s) = none := by rw [hps]; rfl
      have h2 : (parseEntry s).isErr = false := by rw [hps]; rfl
      simp [List.filterMap_cons, List.filter_cons, h1, h2, ih]
    | ok e =>
      have h1 : errTextOf (parseEntry s) = none := by rw [hps]; rfl
      have h2 : (parseEntry s).isErr = false := by rw [hps]; rfl
      simp [List.filterMap_cons, List.filter_cons, h1, h2, ih]
    | err e =>
      have h1 : errTextOf (parseEntry s) = some s := by
        rw [hps]
        show some e.failed_statement = some s
        rw [parseEntry_err_failed hps]
      have h2 : (parseEntry s).isErr = true := by rw [hps]; rfl
      simp [List.filterMap_cons, List.filter_cons, h1, h2, ih]

/-- Claim C2: whenever segmentation succeeds and no yielded statement makes
the per-statement parser panic, the whole parse returns `Ok`; each
successfully parsed statement is appended to the per-kind collection
matching its entry variant (in order), and each statement that fails to
parse contributes its original raw text to `unhandled_entries`; one
statement's failure never aborts the processing of the others. -/
theorem claim_C2 (input : String) (stmts : List String)
    (hseg : segmentStatements input = .ok stmts)
    (hnp : ∀ s ∈ stmts, (parseEntry s).isPanic = false) :
    parseEntriesFromString input = .ok
      ⟨stmts.filterMap (fun s => openOf (parseEntry s)),
       stmts.filterMap (fun s => balanceOf (parseEntry s)),
       stmts.filterMap (fun s => closeOf (parseEntry s)),
       stmts.filterMap (fun s => commodityOf (parseEntry s)),
       stmts.filterMap (fun s => priceOf (parseEntry s)),
       stmts.filterMap (fun s => transactionOf (parseEntry s)),
       stmts.filter (fun s => (parseEntry s).isErr)⟩ := by
  unfold parseEntriesFromString
  rw [hseg]
  show aggregate ParsedEntries.default stmts = _
  rw [aggregate_spec stmts ParsedEntries.default hnp]
  rw [errTextOf_filter]
  rfl

/-- Claim C2 witness: a two-statement input whose second statement has an
unknown command; the first lands in `open`, the second's raw text in
`unhandled_entries`, and the parse still returns `Ok`. -/
theorem claim_C2_witness :
    parseEntriesFromString "2024-01-01 open Assets:Cash\n2024-01-02 foo Bar" = .ok
      ⟨["2024-01-01 open Assets:Cash", "2024-01-02 foo Bar"].filterMap
          (fun s => openOf (parseEntry s)),
       ["2024-01-01 open Assets:Cash", "2024-01-02 foo Bar"].filterMap
          (fun s => balanceOf (parseEntry s)),
       ["2024-01-01 open Assets:Cash", "2024-01-02 foo Bar"].filterMap
          (fun s => closeOf (parseEntry s)),
       ["2024-01-01 open Assets:Cash", "2024-01-02 foo Bar"].filterMap
          (fun s => commodityOf (parseEntry s)),
       ["2024-01-01 open Assets:Cash", "2024-01-02 foo Bar"].filterMap
          (fun s => priceOf (parseEntry s)),
       ["2024-01-01 open Assets:Cash", "2024-01-02 foo Bar"].filterMap
          (fun s => transactionOf (parseEntry s)),
       ["2024-01-01 open Assets:Cash", "2024-01-02 foo Bar"].filter
          (fun s => (parseEntry s).isErr)⟩ :=
  claim_C2 "2024-01-01 open Assets:Cash\n2024-01-02 foo Bar"
    ["2024-01-01 open Assets:Cash", "2024-01-02 foo Bar"]
    (by decide) (by decide)

/-!
## Claim C1 — the balance validator
-/

theorem toListAppend (a b : String) : (a ++ b).toList = a.toList ++ b.toList := by
  cases a; cases b; rfl

theorem sumGo_same (l : List Amount) : ∀ (c : String) (tot : Rat),
    (∀ a ∈ l, a.currency = c) →
    sumGo (some c) tot l = .ok (some c, tot + (l.map (fun a => a.number)).sum) := by
  induction l with
  | nil => intro c tot _; simp [sumGo]
  | cons a tl ih =>
    intro c tot h
    have ha : a.currency = c := h a (by simp)
    have htl : ∀ x ∈ tl, x.currency = c := fun x hx => h x (by simp [hx])
    simp only [sumGo]
    rw [ha, if_neg (by simp), ih c (decAdd tot a.number) htl, decAdd_eq]
    simp [add_assoc]

theorem sumGo_conflict (l : List Amount) : ∀ (c : String) (tot : Rat),
    (∃ a ∈ l, a.currency ≠ c) →
    ∃ cd, cd ≠ c ∧ (∃ a ∈ l, a.currency = cd) ∧
      sumGo (some c) tot l =
        .error ("Multiple currencies in given amounts: " ++ c ++ " and " ++ cd) := by
  induction l with
  | nil => intro c tot h; simp at h
  | cons a tl ih =>
    intro c tot h
    by_cases ha : a.currency = c
    · have hex : ∃ x ∈ tl, x.currency ≠ c := by
        obtain ⟨x, hx, hxc⟩ := h
        rcases List.mem_cons.mp hx with rfl | hx'
        · exact absurd ha hxc
        · exact ⟨x, hx', hxc⟩
      obtain ⟨cd, hcd, ⟨x, hx, hxc⟩, hrec⟩ := ih c (decAdd tot a.number) hex
      refine ⟨cd, hcd, ⟨x, by simp [hx], hxc⟩, ?_⟩
      simp only [sumGo]
      rw [ha, if_neg (by simp)]
      exact hrec
    · refine ⟨a.currency, ha, ⟨a, by simp, rfl⟩, ?_⟩
      simp only [sumGo]
      rw [if_pos (fun hc => ha hc.symm)]

/-- Claim C1: the balance check succeeds trivially on an empty posting list;
with a single shared currency it succeeds exactly when the exact decimal sum
of the posting numbers is zero (no tolerance); and with more than one
distinct currency among the posting amounts it fails with an error message
naming two distinct conflicting currencies drawn from the postings. -/
theorem claim_C1 (t : Transaction) :
    (t.postings = [] → Transaction.check t = .ok ()) ∧
    (∀ c, t.postings ≠ [] → (∀ p ∈ t.postings, p.amount.currency = c) →
      (Transaction.check t = .ok () ↔
        (t.postings.map (fun p => p.amount.number)).sum = 0)) ∧
    ((∃ p ∈ t.postings, ∃ q ∈ t.postings, p.amount.currency ≠ q.amount.currency) →
      ∃ c1 c2 m, c1 ≠ c2 ∧
        (∃ p ∈ t.postings, p.amount.currency = c1) ∧
        (∃ p ∈ t.postings, p.amount.currency = c2) ∧
        Transaction.check t = .error m ∧
        c1.toList <:+: m.toList ∧ c2.toList <:+: m.toList) := by
  refine ⟨?_, ?_, ?_⟩
  · intro h
    simp [Transaction.check, h]
  · intro c hne hall
    cases hp : t.postings with
    | nil => exact absurd hp hne
    | cons p ps =>
      have hpc : p.amount.currency = c := hall p (by simp [hp])
      have hps : ∀ a ∈ ps.map (fun p => p.amount), a.currency = c := by
        intro a ha
        obtain ⟨q, hq, rfl⟩ := List.mem_map.mp ha
        exact hall q (by simp [hp, hq])
      have hsum : sumAmountsIt ((p :: ps).map (fun p => p.amount)) =
          .ok ⟨p.amount.number + (ps.map (fun p => p.amount.number)).sum, c⟩ := by
        simp only [List.map_cons, sumAmountsIt, sumGo]
        rw [hpc, sumGo_same _ c (decAdd 0 p.amount.number) hps, decAdd_eq, zero_add,
          List.map_map]
        rfl
      have hcheck : Transaction.check t =
          (if p.amount.number + (ps.map (fun p => p.amount.number)).sum ≠ 0 then
            .error ("Transaction not balanced: total is " ++
              displayAmount ⟨p.amount.number + (ps.map (fun p => p.amount.number)).sum, c⟩)
          else .ok ()) := by
        rw [Transaction.check, hp]
        simp only [List.isEmpty_cons, Bool.false_eq_true, if_false]
        rw [hsum]
      rw [hcheck]
      by_cases hz : p.amount.number + (ps.map (fun p => p.amount.number)).sum = 0
      · simp [hz]
      · simp [hz]
  · intro ⟨p, hp, q, hq, hpq⟩
    cases hps : t.postings with
    | nil => rw [hps] at hp; simp at hp
    | cons p0 rest =>
      set c0 := p0.amount.currency with hc0
      have hex : ∃ a ∈ rest.map (fun p => p.amount), a.currency ≠ c0 := by
        have hone : ∃ r ∈ t.postings, r.amount.currency ≠ c0 := by
          by_cases hpc : p.amount.currency = c0
          · exact ⟨q, hq, by rw [← hpc]; exact fun h => hpq (h.symm)⟩
          · exact ⟨p, hp, hpc⟩
        obtain ⟨r, hr, hrc⟩ := hone
        rw [hps] at hr
        rcases List.mem_cons.mp hr with rfl | hr'
        · exact absurd rfl hrc
        · exact ⟨r.amount, List.mem_map.mpr ⟨r, hr', rfl⟩, hrc⟩
      obtain ⟨cd, hcd, ⟨a, ha, hac⟩, hrec⟩ := sumGo_conflict _ c0 (decAdd 0 p0.amount.number) hex
      have herr : sumAmountsIt ((p0 :: rest).map (fun p => p.amount)) =
          .error ("Multiple currencies in given amounts: " ++ c0 ++ " and " ++ cd) := by
        simp only [List.map_cons, sumAmountsIt, sumGo]
        rw [hrec]
      have hcheck : Transaction.check t =
          .error ("Invalid collection of amounts in postings: Error " ++
            ("Multiple currencies in given amounts: " ++ c0 ++ " and " ++ cd) ++
            ". Transaction: " ++ debugFmtTransaction t) := by
        rw [Transaction.check, hps]
        simp only [List.isEmpty_cons, Bool.false_eq_true, if_false]
        rw [herr]
      refine ⟨c0, cd, _, fun h => hcd h.symm, ⟨p0, by simp, rfl⟩, ?_, hcheck, ?_, ?_⟩
      · obtain ⟨r, hr', rfl⟩ := List.mem_map.mp ha
        exact ⟨r, by simp [hr'], hac⟩
      · refine ⟨("Invalid collection of amounts in postings: Error " ++
          "Multiple currencies in given amounts: ").toList,
          (" and " ++ cd ++ ". Transaction: " ++ debugFmtTransaction t).toList, ?_⟩
        simp only [toListAppend, List.append_assoc]
      · refine ⟨("Invalid collection of amounts in postings: Error " ++
          "Multiple currencies in given amounts: " ++ c0 ++ " and ").toList,
          (". Transaction: " ++ debugFmtTransaction t).toList, ?_⟩
        simp only [toListAppend, List.append_assoc]

/-- Claim C1 witness: the empty transaction passes; `100 USD` with
`-100 USD` balances to zero and passes; `100 USD` with `-100 CHF` fails
naming two currencies. -/
theorem claim_C1_witness :
    Transaction.check ⟨⟨2023, 1, 1⟩, .OK, none, none, []⟩ = .ok () ∧
    Transaction.check ⟨⟨2023, 1, 1⟩, .OK, none, none,
      [⟨"Assets:Cash", ⟨100, "USD"⟩, none, none⟩,
       ⟨"Assets:Other", ⟨-100, "USD"⟩, none, none⟩]⟩ = .ok () ∧
    (∃ c1 c2 m, c1 ≠ c2 ∧
      (∃ p ∈ (⟨⟨2023, 1, 1⟩, .OK, none, none,
        [⟨"Assets:Cash", ⟨100, "USD"⟩, none, none⟩,
         ⟨"Assets:Other", ⟨-100, "CHF"⟩, none, none⟩]⟩ : Transaction).postings,
        p.amount.currency = c1) ∧
      (∃ p ∈ (⟨⟨2023, 1, 1⟩, .OK, none, none,
        [⟨"Assets:Cash", ⟨100, "USD"⟩, none, none⟩,
         ⟨"Assets:Other", ⟨-100, "CHF"⟩, none, none⟩]⟩ : Transaction).postings,
        p.amount.currency = c2) ∧
      Transaction.check ⟨⟨2023, 1, 1⟩, .OK, none, none,
        [⟨"Assets:Cash", ⟨100, "USD"⟩, none, none⟩,
         ⟨"Assets:Other", ⟨-100, "CHF"⟩, none, none⟩]⟩ = .error m ∧
      c1.toList <:+: m.toList ∧ c2.toList <:+: m.toList) :=
  ⟨(claim_C1 ⟨⟨2023, 1, 1⟩, .OK, none, none, []⟩).1 rfl,
   ((claim_C1 _).2.1 "USD" (by decide) (by decide)).mpr (by simp),
   (claim_C1 _).2.2 ⟨⟨"Assets:Cash", ⟨100, "USD"⟩, none, none⟩, by decide,
     ⟨"Assets:Other", ⟨-100, "CHF"⟩, none, none⟩, by decide, by decide⟩⟩

/-!
## Claim C6 — the amount grammar's currency rule
-/

theorem take_findIdx?_neg_eq_takeWhile {p : Char → Bool} :
    ∀ (l : List Char) (r : Nat), l.findIdx? (fun c => !p c) = some r →
      l.take r = l.takeWhile p := by
  intro l
  induction l with
  | nil => intro r h; simp at h
  | cons c tl ih =>
    intro r h
    rw [List.findIdx?_cons, List.findIdx?_succ] at h
    by_cases hc : p c = true
    · rw [hc] at h
      simp only [Bool.not_true, Bool.false_eq_true, if_false] at h
      cases hrec : tl.findIdx? (fun c => !p c) with
      | none => rw [hrec] at h; simp at h
      | some r' =>
        rw [hrec] at h
        simp only [Option.map_some'] at h
        injection h with h'
        rw [← h', List.take_succ_cons, List.takeWhile_cons, hc, if_pos rfl, ih r' hrec]
    · have hc' : p c = false := by revert hc; cases p c <;> simp
      rw [hc'] at h
      simp only [Bool.not_false, if_pos rfl] at h
      injection h with h'
      rw [← h', List.take_zero, List.takeWhile_cons, hc']
      rfl

theorem takeWhile_of_findIdx?_neg_none {p : Char → Bool} :
    ∀ l : List Char, l.findIdx? (fun c => !p c) = none → l.takeWhile p = l := by
  intro l h
  have hall := List.findIdx?_eq_none_iff.mp h
  induction l with
  | nil => rfl
  | cons c tl ih =>
    have hc : p c = true := by
      have := hall c (by simp)
      revert this; cases p c <;> simp
    rw [List.takeWhile_cons, hc, if_pos rfl]
    rw [ih ?_ ?_]
    · rw [List.findIdx?_eq_none_iff]
      exact fun x hx => hall x (by simp [hx])
    · exact fun x hx => hall x (by simp [hx])

theorem take_ce_split {p : Char → Bool} :
    ∀ (l : List Char) (cs : Nat), l.findIdx? p = some cs →
      l.take (cs + ((l.drop cs).findIdx? (fun c => !p c)).getD (l.length - cs))
        = l.takeWhile (fun c => !p c) ++ (l.dropWhile (fun c => !p c)).takeWhile p := by
  intro l
  induction l with
  | nil => intro cs h; simp at h
  | cons c tl ih =>
    intro cs h
    rw [List.findIdx?_cons, List.findIdx?_succ] at h
    by_cases hc : p c = true
    · rw [hc] at h
      simp only [if_pos rfl] at h
      injection h with h'
      subst h'
      have hnc : (!p c) = false := by rw [hc]; rfl
      simp only [Nat.zero_add, List.drop_zero, List.length_cons, Nat.sub_zero]
      rw [List.takeWhile_cons (p := fun c => !p c), hnc]
      simp only [Bool.false_eq_true, if_false, List.nil_append]
      rw [List.dropWhile_cons (p := fun c => !p c), hnc]
      simp only [Bool.false_eq_true, if_false]
      rw [List.takeWhile_cons, hc, if_pos rfl]
      rw [List.findIdx?_cons, List.findIdx?_succ, hnc]
      simp only [Bool.false_eq_true, if_false]
      cases hrec : tl.findIdx? (fun c => !p c) with
      | none =>
        simp only [Option.map_none', Option.getD_none]
        rw [List.take_succ_cons, List.take_of_length_le (by omega),
          takeWhile_of_findIdx?_neg_none tl hrec]
      | some r' =>
        simp only [Option.map_some', Option.getD_some]
        rw [List.take_succ_cons, take_findIdx?_neg_eq_takeWhile tl r' hrec]
    · have hc' : p c = false := by revert hc; cases p c <;> simp
      rw [hc'] at h
      simp only [Bool.false_eq_true, if_false] at h
      cases hrec : tl.findIdx? p with
      | none => rw [hrec] at h; simp at h
      | some cs' =>
        rw [hrec] at h
        simp only [Option.map_some'] at h
        injection h with h'
        subst h'
        have hnc : (!p c) = true := by rw [hc']; rfl
        rw [List.drop_succ_cons, List.length_cons,
          show tl.length + 1 - (cs' + 1) = tl.length - cs' from by omega,
          show cs' + 1 + ((tl.drop cs').findIdx? (fun c => !p c)).getD (tl.length - cs')
            = (cs' + ((tl.drop cs').findIdx? (fun c => !p c)).getD (tl.length - cs')) + 1
            from by omega,
          List.take_succ_cons, ih cs' hrec,
          List.takeWhile_cons (p := fun c => !p c), hnc, if_pos rfl,
          List.dropWhile_cons (p := fun c => !p c), hnc, if_pos rfl]
        rfl

theorem alpha_not_ws (c : Char) (h : alphaChar c = true) : wsChar c = false := by
  by_contra hw
  have hw' : wsChar c = true := by revert hw; cases wsChar c <;> simp
  have hcases : c = ' ' ∨ c = '\t' ∨ c = '\r' ∨ c = '\n' := by
    simpa [wsChar, Char.isWhitespace, or_assoc] using hw'
  rcases hcases with h' | h' | h' | h' <;> subst h' <;> exact absurd h (by decide)

theorem dropWhile_append_of_head {p : Char → Bool} :
    ∀ (A B : List Char), (∀ hb : B ≠ [], p (B.head hb) = false) →
      (A ++ B).dropWhile p = A.dropWhile p ++ B := by
  intro A B hB
  induction A with
  | nil =>
    simp only [List.nil_append, List.dropWhile_nil]
    cases B with
    | nil => rfl
    | cons b bs =>
      have hb : p b = false := hB (by simp)
      rw [List.dropWhile_cons, hb]
      rfl
  | cons c tl ih =>
    rw [List.cons_append, List.dropWhile_cons, List.dropWhile_cons]
    cases hpc : p c with
    | true => simpa using ih
    | false => simp

theorem takeWhile_all_append {p : Char → Bool} :
    ∀ (A B : List Char), (∀ x ∈ A, p x = true) →
      (A ++ B).takeWhile p = A ++ B.takeWhile p := by
  intro A B h
  induction A with
  | nil => simp
  | cons c tl ih =>
    rw [List.cons_append, List.takeWhile_cons, h c (by simp), if_pos rfl,
      ih (fun x hx => h x (by simp [hx]))]
    rfl

theorem takeWhile_of_all {p : Char → Bool} :
    ∀ (A : List Char), (∀ x ∈ A, p x = true) → A.takeWhile p = A := by
  intro A h
  have := takeWhile_all_append A [] h
  simpa using this

theorem dropWhile_of_all {p : Char → Bool} :
    ∀ (A : List Char), (∀ x ∈ A, p x = true) → A.dropWhile p = [] := by
  intro A h
  induction A with
  | nil => rfl
  | cons c tl ih =>
    rw [List.dropWhile_cons, h c (by simp), if_pos rfl]
    exact ih (fun x hx => h x (by simp [hx]))

theorem trimEnd_of_getLast_not_ws :
    ∀ L : List Char, (∀ h : L ≠ [], wsChar (L.getLast h) = false) →
      trimEndChars L = L := by
  intro L hL
  unfold trimEndChars
  cases hrev : L.reverse with
  | nil =>
    have : L = [] := by simpa using congrArg List.reverse hrev
    subst this
    rfl
  | cons d ds =>
    have hLne : L ≠ [] := by
      intro hnil; subst hnil; simp at hrev
    have hd : d = L.getLast hLne := by
      have h1 : L.reverse.head? = some d := by rw [hrev]; rfl
      rw [List.head?_reverse] at h1
      have h2 : L.getLast? = some (L.getLast hLne) := List.getLast?_eq_getLast L hLne
      rw [h1] at h2
      exact Option.some.inj h2
    rw [List.dropWhile_cons]
    have hwd : wsChar d = false := by rw [hd]; exact hL hLne
    rw [hwd]
    simp only [Bool.false_eq_true, if_false]
    have hgoal : L = (d :: ds).reverse := by rw [← hrev, List.reverse_reverse]
    exact hgoal.symm

theorem findIdx?_append_all_false {p : Char → Bool} :
    ∀ (A : List Char) (d : Char) (bs : List Char), (∀ x ∈ A, p x = false) →
      p d = true → (A ++ d :: bs).findIdx? p = some A.length := by
  intro A d bs hA hd
  induction A with
  | nil => simp [List.findIdx?_cons, hd]
  | cons c tl ih =>
    rw [List.cons_append, List.findIdx?_cons, List.findIdx?_succ, hA c (by simp),
      ih (fun x hx => hA x (by simp [hx]))]
    rfl

theorem tryFrom_currency_of_decomp (pre : List Char) (d : Char) (ds : List Char) (a : Amount)
    (hpre : ∀ x ∈ pre, alphaChar x = false)
    (hrun : ∀ x ∈ d :: ds, alphaChar x = true)
    (htf : Amount.tryFrom (String.mk (pre ++ d :: ds)) = .ok a) :
    a.currency = String.mk (d :: ds) := by
  unfold Amount.tryFrom at htf
  dsimp only at htf
  rw [show (String.mk (pre ++ d :: ds)).toList = pre ++ d :: ds from rfl] at htf
  have hstep1 : trimStartChars (pre ++ d :: ds) = pre.dropWhile wsChar ++ d :: ds := by
    unfold trimStartChars
    exact dropWhile_append_of_head pre (d :: ds)
      (fun _ => alpha_not_ws d (hrun d (by simp)))
  have hstep2 : trimChars (pre ++ d :: ds) = pre.dropWhile wsChar ++ d :: ds := by
    unfold trimChars
    rw [hstep1]
    apply trimEnd_of_getLast_not_ws
    intro h
    rw [List.getLast_append h]
    simp only [List.isEmpty_cons, Bool.false_eq_true, dif_neg, not_false_iff]
    have hmem : (d :: ds).getLast (by simp) ∈ d :: ds := List.getLast_mem _
    exact alpha_not_ws _ (hrun _ hmem)
  rw [hstep2] at htf
  have hX : ∀ x ∈ pre.dropWhile wsChar, alphaChar x = false :=
    fun x hx => hpre x ((List.dropWhile_sublist wsChar).subset hx)
  have hfind : (pre.dropWhile wsChar ++ d :: ds).findIdx? alphaChar =
      some (pre.dropWhile wsChar).length :=
    findIdx?_append_all_false _ d ds hX (hrun d (by simp))
  rw [hfind] at htf
  dsimp only at htf
  rw [List.drop_left] at htf
  rw [takeWhile_of_all _ hrun, dropWhile_of_all _ hrun] at htf
  simp only [List.isEmpty_nil, if_pos rfl] at htf
  cases hdec : decimalFromStrExact
      (trimChars ((pre.dropWhile wsChar ++ d :: ds).take (pre.dropWhile wsChar).length)) with
  | none => rw [hdec] at htf; exact absurd htf (by simp)
  | some q =>
    rw [hdec] at htf
    injection htf with h'
    rw [← h']

/-- Claim C6: `consume_amount` takes the currency to be the maximal run of
alphabetic characters beginning at the first alphabetic character of the
input; `5 BTC` and `5BTC` both parse to number 5 with currency `BTC` (the
space is optional); and an input with no alphabetic character fails with a
no-currency error.  (`Amount::try_from` is spec-modelled; see its doc
comment.) -/
theorem claim_C6 :
    (∀ input : String, (∀ c ∈ input.toList, alphaChar c = false) →
      consumeAmount input = .error ("No currency found: " ++ input)) ∧
    (∀ (input : String) (a : Amount) (rest : String),
      consumeAmount input = .ok (a, rest) →
      a.currency = String.mk
        ((input.toList.dropWhile (fun c => !alphaChar c)).takeWhile alphaChar)) ∧
    consumeAmount "5 BTC" = .ok (⟨5, "BTC"⟩, "") ∧
    consumeAmount "5BTC" = .ok (⟨5, "BTC"⟩, "") := by
  refine ⟨?_, ?_, by decide, by decide⟩
  · intro input hall
    unfold consumeAmount
    dsimp only
    rw [List.findIdx?_eq_none_iff.mpr hall]
  · intro input a rest h
    unfold consumeAmount at h
    dsimp only at h
    cases hidx : input.toList.findIdx? alphaChar with
    | none => rw [hidx] at h; exact absurd h (by simp)
    | some cs =>
      rw [hidx] at h
      dsimp only at h
      rw [take_ce_split input.toList cs hidx] at h
      have hdr_ne : input.toList.dropWhile (fun c => !alphaChar c) ≠ [] := by
        intro hnil
        have hall : ∀ x ∈ input.toList, alphaChar x = false := by
          intro x hx
          have := List.dropWhile_eq_nil_iff.mp hnil x hx
          revert this; cases alphaChar x <;> simp
        rw [List.findIdx?_eq_none_iff.mpr hall] at hidx
        exact absurd hidx (by simp)
      obtain ⟨d, ds, hdds⟩ : ∃ d ds,
          input.toList.dropWhile (fun c => !alphaChar c) = d :: ds := by
        cases hdr : input.toList.dropWhile (fun c => !alphaChar c) with
        | nil => exact absurd hdr hdr_ne
        | cons d ds => exact ⟨d, ds, rfl⟩
      have hd_alpha' : alphaChar d = true := by
        have hhead := List.head_dropWhile_not (fun c => !alphaChar c) input.toList hdr_ne
        have hdval : (input.toList.dropWhile (fun c => !alphaChar c)).head hdr_ne = d := by
          have h1 : (input.toList.dropWhile (fun c => !alphaChar c)).head? = some d := by
            rw [hdds]; rfl
          have h2 := List.head?_eq_head (l := input.toList.dropWhile (fun c => !alphaChar c))
            hdr_ne
          rw [h1] at h2
          exact (Option.some.inj h2).symm
        rw [hdval] at hhead
        revert hhead
        cases alphaChar d <;> simp
      have hrun_eq : (input.toList.dropWhile (fun c => !alphaChar c)).takeWhile alphaChar
          = d :: ds.takeWhile alphaChar := by
        rw [hdds, List.takeWhile_cons, hd_alpha', if_pos rfl]
      simp only [hrun_eq] at h
      have hpre : ∀ x ∈ input.toList.takeWhile (fun c => !alphaChar c), alphaChar x = false := by
        intro x hx
        have := List.mem_takeWhile_imp hx
        revert this; cases alphaChar x <;> simp
      have hrun_alpha : ∀ x ∈ d :: ds.takeWhile alphaChar, alphaChar x = true := by
        intro x hx
        rcases List.mem_cons.mp hx with rfl | hx'
        · exact hd_alpha'
        · exact List.mem_takeWhile_imp hx'
      cases htf : Amount.tryFrom (String.mk
          (input.toList.takeWhile (fun c => !alphaChar c) ++ d :: ds.takeWhile alphaChar)) with
      | error e => rw [htf] at h; exact absurd h (by simp)
      | ok a' =>
        rw [htf] at h
        have hpair := Except.ok.inj h
        have ha' : a' = a := ((Prod.mk.injEq _ _ _ _).mp hpair).1
        rw [hrun_eq, ← ha']
        exact tryFrom_currency_of_decomp _ d _ a' hpre hrun_alpha htf


/-- Claim C6 witness: an all-numeric input has no currency; `5BTC` parses
with currency equal to the maximal alphabetic run of the input. -/
theorem claim_C6_witness :
    consumeAmount "123" = .error ("No currency found: " ++ "123") ∧
    (⟨5, "BTC"⟩ : Amount).currency =
      String.mk (("5BTC".toList.dropWhile (fun c => !alphaChar c)).takeWhile alphaChar) :=
  ⟨claim_C6.1 "123" (by decide),
   claim_C6.2.1 "5BTC" ⟨5, "BTC"⟩ "" (by decide)⟩

end Beanrust
